import Mathlib

/-!
Verification development for the JSONVisualizer core (src/app.py).

The JSON value domain produced by `json.loads` is embedded as a mutual
inductive family: objects are insertion-ordered lists of key/value pairs
(CPython dicts preserve insertion order) and arrays are ordered lists.
JSON numbers are modelled as integers; floating-point literals are outside
the model. Python string primitives used by the code (`str()`, `repr()`,
`json.dumps`, `str.lower`, the `in` substring test) are embedded explicitly
below, faithful on ASCII content.
-/

mutual
inductive JsonValue where
  | str (s : String)
  | num (n : Int)
  | bool (b : Bool)
  | null
  | obj (members : JsonMembers)
  | arr (items : JsonItems)

inductive JsonMembers where
  | nil
  | cons (key : String) (value : JsonValue) (rest : JsonMembers)

inductive JsonItems where
  | nil
  | cons (value : JsonValue) (rest : JsonItems)
end

/-- The single-quote character (written via its code point). -/
def sqChar : Char := Char.ofNat 39

/-- The left-brace character. -/
def lbrace : Char := Char.ofNat 123

/-- The right-brace character. -/
def rbrace : Char := Char.ofNat 125

/-- Python `needle in hay` on character lists: `needle` occurs as a
contiguous subsequence of `hay`. -/
def listContainsSeq (needle : List Char) : List Char → Bool
  | [] => needle.isEmpty
  | c :: rest => List.isPrefixOf needle (c :: rest) || listContainsSeq needle rest

/-- Python `needle in hay` for strings (substring containment). -/
def strContains (hay needle : String) : Bool :=
  listContainsSeq needle.data hay.data

/-- Python `str.lower()` (ASCII case folding, as used by the code on
ASCII search terms and serializations). -/
def strLower (s : String) : String :=
  String.mk (s.data.map Char.toLower)

/-- `p` is a prefix of `s` (on the character lists). -/
def strIsPre (p s : String) : Bool :=
  List.isPrefixOf p.data s.data

/-- Join a list of strings with a separator. -/
def joinSep (sep : String) : List String → String
  | [] => ""
  | [x] => x
  | x :: xs => x ++ sep ++ joinSep sep xs

/-- Concatenate a list of strings. -/
def concatAll : List String → String
  | [] => ""
  | x :: xs => x ++ concatAll xs

/-! ## Type classifier (src/app.py lines 40-54)

Each `isinstance` test of `get_value_type` is embedded on the value
domain. CPython's `bool` is a subclass of `int`, so
`isinstance(value, (int, float))` is true for boolean values as well. -/

def isinstance_str : JsonValue → Bool
  | .str _ => true
  | _ => false

/-- `isinstance(value, (int, float))`: true for numbers and, because
CPython `bool` is a subclass of `int`, for booleans. -/
def isinstance_int_float : JsonValue → Bool
  | .num _ => true
  | .bool _ => true
  | _ => false

def isinstance_bool : JsonValue → Bool
  | .bool _ => true
  | _ => false

def is_none : JsonValue → Bool
  | .null => true
  | _ => false

def isinstance_dict : JsonValue → Bool
  | .obj _ => true
  | _ => false

def isinstance_list : JsonValue → Bool
  | .arr _ => true
  | _ => false

/-- `get_value_type` (src/app.py lines 40-54): the `isinstance` chain in
source order. -/
def get_value_type (value : JsonValue) : String :=
  if isinstance_str value then "string"
  else if isinstance_int_float value then "number"
  else if isinstance_bool value then "boolean"
  else if is_none value then "null"
  else if isinstance_dict value then "object"
  else if isinstance_list value then "array"
  else "unknown"

/-! ## Python `json.dumps` (default options), as called at src/app.py line 104 -/

def hexDigitChar (n : Nat) : Char :=
  if n < 10 then Char.ofNat (48 + n) else Char.ofNat (87 + n)

/-- A `\uXXXX` escape (lowercase hex), as emitted by `json.dumps`. -/
def uEscape (n : Nat) : String :=
  "\\u" ++ String.mk [hexDigitChar (n / 4096 % 16), hexDigitChar (n / 256 % 16),
    hexDigitChar (n / 16 % 16), hexDigitChar (n % 16)]

/-- Escaping of one character inside a `json.dumps` string literal
(default `ensure_ascii=True`): printable ASCII other than quote and
backslash passes through, everything else is escaped. -/
def jsonEscapeChar (c : Char) : String :=
  if c = '"' then "\\\""
  else if c = '\\' then "\\\\"
  else if c = '\n' then "\\n"
  else if c = '\r' then "\\r"
  else if c = '\t' then "\\t"
  else if c = Char.ofNat 8 then "\\b"
  else if c = Char.ofNat 12 then "\\f"
  else if c.toNat < 32 then uEscape c.toNat
  else if c.toNat < 127 then String.mk [c]
  else if c.toNat < 65536 then uEscape c.toNat
  else
    uEscape (55296 + (c.toNat - 65536) / 1024) ++ uEscape (56320 + (c.toNat - 65536) % 1024)

/-- `json.dumps` of a Python string. -/
def json_dumps_str (s : String) : String :=
  "\"" ++ concatAll (s.data.map jsonEscapeChar) ++ "\""

mutual
/-- `json.dumps(v)` with default separators `", "` and `": "`. -/
def json_dumps : JsonValue → String
  | .str s => json_dumps_str s
  | .num n => toString n
  | .bool true => "true"
  | .bool false => "false"
  | .null => "null"
  | .obj ms => String.mk [lbrace] ++ joinSep ", " (json_dumps_members ms) ++ String.mk [rbrace]
  | .arr its => "[" ++ joinSep ", " (json_dumps_items its) ++ "]"

def json_dumps_members : JsonMembers → List String
  | .nil => []
  | .cons k v rest => (json_dumps_str k ++ ": " ++ json_dumps v) :: json_dumps_members rest

def json_dumps_items : JsonItems → List String
  | .nil => []
  | .cons v rest => json_dumps v :: json_dumps_items rest
end

/-! ## Python `str()` / `repr()` of a parsed JSON value, as called at
src/app.py lines 69 and 86 (`str(data)`).

`str` of a container uses `repr` of its elements: dict keys and string
elements are rendered quoted, `None` / `True` / `False` keep their Python
spellings. `repr` of a string uses single quotes unless the string contains
a single quote and no double quote; backslash, the delimiter and control
characters are escaped (CPython also escapes other non-printables, which
ASCII content never triggers). -/

def pyReprEscChar (q : Char) (c : Char) : String :=
  if c = '\\' then "\\\\"
  else if c = q then "\\" ++ String.mk [q]
  else if c = '\n' then "\\n"
  else if c = '\r' then "\\r"
  else if c = '\t' then "\\t"
  else if c.toNat < 32 ∨ c.toNat = 127 then
    "\\x" ++ String.mk [hexDigitChar (c.toNat / 16 % 16), hexDigitChar (c.toNat % 16)]
  else String.mk [c]

/-- CPython `repr` of a string. -/
def pyReprStr (s : String) : String :=
  let q := if s.data.contains sqChar && !(s.data.contains '"') then '"' else sqChar
  String.mk [q] ++ concatAll (s.data.map (pyReprEscChar q)) ++ String.mk [q]

mutual
/-- CPython `repr(v)` of a parsed JSON value. -/
def pyRepr : JsonValue → String
  | .str s => pyReprStr s
  | .num n => toString n
  | .bool true => "True"
  | .bool false => "False"
  | .null => "None"
  | .obj ms => String.mk [lbrace] ++ joinSep ", " (pyReprMembers ms) ++ String.mk [rbrace]
  | .arr its => "[" ++ joinSep ", " (pyReprItems its) ++ "]"

def pyReprMembers : JsonMembers → List String
  | .nil => []
  | .cons k v rest => (pyReprStr k ++ ": " ++ pyRepr v) :: pyReprMembers rest

def pyReprItems : JsonItems → List String
  | .nil => []
  | .cons v rest => pyRepr v :: pyReprItems rest
end

/-- CPython `str(v)` of a parsed JSON value: identical to `repr` except
that a top-level string is returned unquoted. -/
def pyStr : JsonValue → String
  | .str s => s
  | v => pyRepr v

/-! ## Path search engine (src/app.py lines 99-111) -/

/-- One search result record (src/app.py line 105). -/
structure SearchHit where
  path : String
  key : String
  value : JsonValue

/-- `new_path = f"{path}.{k}" if path else k` (src/app.py line 103). -/
def child_path (path k : String) : String :=
  if path ≠ "" then path ++ "." ++ k else k

/-- The value half of the hit condition at src/app.py line 104:
`term.lower() in json.dumps(v).lower()`. -/
def search_value_match (term : String) (v : JsonValue) : Bool :=
  strContains (strLower (json_dumps v)) (strLower term)

mutual
/-- `search_json` (src/app.py lines 99-111). Hits are appended for dict
pairs only; dict and list children are visited in insertion order. -/
def search_json : JsonValue → String → String → List SearchHit
  | .obj ms, term, path => searchMembers ms term path
  | .arr its, term, path => searchItems its term path 0
  | _, _, _ => []

def searchMembers : JsonMembers → String → String → List SearchHit
  | .nil, _, _ => []
  | .cons k v rest, term, path =>
    (if strContains (strLower k) (strLower term) || search_value_match term v
     then [⟨child_path path k, k, v⟩] else [])
    ++ search_json v term (child_path path k)
    ++ searchMembers rest term path

def searchItems : JsonItems → String → String → Nat → List SearchHit
  | .nil, _, _, _ => []
  | .cons v rest, term, path, i =>
    search_json v term (path ++ "[" ++ toString i ++ "]")
    ++ searchItems rest term path (i + 1)
end

/-- The example object from the spec, `\x7b"list": [10, 20]\x7d`. -/
def exList : JsonValue :=
  .obj (.cons "list" (.arr (.cons (.num 10) (.cons (.num 20) .nil))) .nil)

/-- The example object from the spec, `\x7b"a": 1, "b": \x7b"c": 2\x7d\x7d`. -/
def exAB : JsonValue :=
  .obj (.cons "a" (.num 1) (.cons "b" (.obj (.cons "c" (.num 2) .nil)) .nil))

/-! ## Tree renderer (src/app.py lines 56-97)

`render_json_tree` recursively builds an HTML string. The embedding
splits it into `renderTree`, which computes the per-node data the
f-strings interpolate (key label, container kind, the highlight flag of
line 69/86, the `open` default of line 74, the leaf value markup of
lines 87-96, and the recursively rendered children of lines 61-66), and
`emitNode`, which performs the f-string concatenation of lines 72-84
and 97. `render_json_tree` is their composition. -/

/-- The highlight condition of src/app.py lines 69 and 86:
`search_term and search_term.lower() in str(data).lower()` (an empty
`search_term` is falsy). -/
def render_highlight (data : JsonValue) (search_term : String) : Bool :=
  decide (search_term ≠ "") && strContains (strLower (pyStr data)) (strLower search_term)

mutual
inductive TreeNode where
  | container (key : String) (isObj : Bool) (highlighted : Bool)
      (expandedDefault : Bool) (children : TreeNodes)
  | leaf (key : String) (highlighted : Bool) (valueHtml : String)

inductive TreeNodes where
  | nil
  | cons (node : TreeNode) (rest : TreeNodes)
end

/-- The leaf value markup of src/app.py lines 87-96, dispatching on
`get_value_type` exactly as the source does (`\x7bdata\x7d` in an f-string is
`str(data)`). -/
def leaf_value_html (data : JsonValue) : String :=
  let vt := get_value_type data
  if vt = "string" then "<span class=\"json-string\">\"" ++ pyStr data ++ "\"</span>"
  else if vt = "number" then "<span class=\"json-number\">" ++ pyStr data ++ "</span>"
  else if vt = "boolean" then "<span class=\"json-boolean\">" ++ strLower (pyStr data) ++ "</span>"
  else if vt = "null" then "<span class=\"json-null\">null</span>"
  else pyStr data

mutual
/-- Per-node data of `render_json_tree` (src/app.py lines 56-97): children
are rendered at `level + 1` (lines 63 and 66), array children get the
synthetic key `[i]` (line 66), the highlight flag is the line 69/86
condition, and the default-expanded flag is `level < 2` (line 74). -/
def renderTree : JsonValue → String → String → Nat → TreeNode
  | .obj ms, key, search_term, level =>
    .container key true (render_highlight (.obj ms) search_term) (decide (level < 2))
      (renderMembers ms search_term (level + 1))
  | .arr its, key, search_term, level =>
    .container key false (render_highlight (.arr its) search_term) (decide (level < 2))
      (renderItems its search_term (level + 1) 0)
  | data, key, search_term, _ =>
    .leaf key (render_highlight data search_term) (leaf_value_html data)

def renderMembers : JsonMembers → String → Nat → TreeNodes
  | .nil, _, _ => .nil
  | .cons k v rest, search_term, childLevel =>
    .cons (renderTree v k search_term childLevel) (renderMembers rest search_term childLevel)

def renderItems : JsonItems → String → Nat → Nat → TreeNodes
  | .nil, _, _, _ => .nil
  | .cons v rest, search_term, childLevel, i =>
    .cons (renderTree v ("[" ++ toString i ++ "]") search_term childLevel)
      (renderItems rest search_term childLevel (i + 1))
end

mutual
/-- The f-string assembly of src/app.py lines 72-84 (containers) and
line 97 (leaves), including the literal indentation of the multi-line
f-string. -/
def emitNode : TreeNode → String
  | .container key isObj highlighted expanded children =>
    let highlight_class := if highlighted then "json-highlight" else ""
    let open_bracket := if isObj then String.mk [lbrace] else "["
    let close_bracket := if isObj then String.mk [rbrace] else "]"
    let content := "<ul>" ++ emitNodes children ++ "</ul>"
    "\n        <div class=\"tree-node " ++ highlight_class ++ "\">\n            <details "
      ++ (if expanded then "open" else "") ++ ">\n                <summary>\n                    <span class=\"json-key\">"
      ++ key ++ "</span><span class=\"bracket\">" ++ open_bracket
      ++ "</span>\n                </summary>\n                <div class=\"tree-content\">\n                    "
      ++ content ++ "\n                </div>\n            </details>\n            <span class=\"bracket\">"
      ++ close_bracket ++ "</span>\n        </div>\n        "
  | .leaf key highlighted valueHtml =>
    let highlight_class := if highlighted then "json-highlight" else ""
    "<div class=\"tree-node " ++ highlight_class ++ "\"><span class=\"json-key\">" ++ key
      ++ "</span>: " ++ valueHtml ++ "</div>"

/-- `"<li>" + render_json_tree(child, ...) + "</li>"` for each child
(src/app.py lines 63 and 66). -/
def emitNodes : TreeNodes → String
  | .nil => ""
  | .cons n rest => "<li>" ++ emitNode n ++ "</li>" ++ emitNodes rest
end

/-- `render_json_tree` (src/app.py lines 56-97). -/
def render_json_tree (data : JsonValue) (key : String) (search_term : String) (level : Nat) : String :=
  emitNode (renderTree data key search_term level)

/-- The highlight flag of a rendered node. -/
def TreeNode.isHighlighted : TreeNode → Bool
  | .container _ _ h _ _ => h
  | .leaf _ h _ => h

/-- The default-expanded flag of a rendered node (`none` for leaves, which
emit no `<details>` element). -/
def TreeNode.expandedFlag : TreeNode → Option Bool
  | .container _ _ _ e _ => some e
  | .leaf _ _ _ => none

mutual
/-- Specification predicate: every container node of a rendered tree whose
root sits at depth `d` has its default-expanded flag equal to `d < 2`,
counting each child one level deeper. -/
def expandedOk : TreeNode → Nat → Bool
  | .container _ _ _ e children, d => (e == decide (d < 2)) && expandedOkKids children (d + 1)
  | .leaf _ _ _, _ => true

def expandedOkKids : TreeNodes → Nat → Bool
  | .nil, _ => true
  | .cons n rest, d => expandedOk n d && expandedOkKids rest d
end

/-! ## Comment stripping (src/app.py lines 22-30)

`remove_comments` applies `re.sub` with the pattern
`(\".*?\"|\x27.*?\x27)|(/\*.*?\*/|//[^\r\n]*$)` under `MULTILINE | DOTALL`,
keeping group 1 (string literals, non-greedy: up to the next identical
quote, with no escape handling) and deleting group 2 (block comments up to
the first `*/`; line comments whose run of non-CR/LF characters ends at the
end of the text or before a `\n` — before a `\r` the `$` anchor fails and no
match happens there). The scan below reproduces `re.sub`: at each position
try the alternatives in order; on failure emit one character and advance.
The `fuel` argument only drives termination; every recursive call consumes
at least one character, so `fuel = length` never runs out. -/

/-- Split at the first occurrence of the quote `q`: the non-greedy
`q.*?q` body and the remainder after the closing quote. -/
def splitAtQuote (q : Char) : List Char → Option (List Char × List Char)
  | [] => none
  | c :: rest =>
    if c = q then some ([], rest)
    else (splitAtQuote q rest).map (fun pr => (c :: pr.1, pr.2))

/-- The remainder after the first `*/` (non-greedy `/\*.*?\*/`). -/
def dropAfterBlockEnd : List Char → Option (List Char)
  | [] => none
  | c :: rest =>
    if c = '*' then
      match rest with
      | c2 :: rest2 => if c2 = '/' then some rest2 else dropAfterBlockEnd rest
      | [] => none
    else dropAfterBlockEnd rest

def stripChars : Nat → List Char → List Char
  | 0, cs => cs
  | fuel + 1, cs =>
    match cs with
    | [] => []
    | c :: rest =>
      if c = '"' ∨ c = sqChar then
        match splitAtQuote c rest with
        | some (content, rest2) => c :: (content ++ c :: stripChars fuel rest2)
        | none => c :: stripChars fuel rest
      else if c = '/' then
        match rest with
        | c2 :: rest2 =>
          if c2 = '*' then
            match dropAfterBlockEnd rest2 with
            | some rest3 => stripChars fuel rest3
            | none => c :: stripChars fuel rest
          else if c2 = '/' then
            match rest2.dropWhile (fun ch => ch != '\r' && ch != '\n') with
            | [] => []
            | ch :: tail => if ch = '\n' then stripChars fuel (ch :: tail)
                            else c :: stripChars fuel rest
          else c :: stripChars fuel rest
        | [] => [c]
      else c :: stripChars fuel rest

/-- `remove_comments` (src/app.py lines 22-30). -/
def remove_comments (json_string : String) : String :=
  String.mk (stripChars json_string.data.length json_string.data)

/-- Companion scan: does the pattern's group 2 (a comment) match anywhere
outside the string literals that group 1 consumes first? -/
def hasCommentChars : Nat → List Char → Bool
  | 0, _ => false
  | fuel + 1, cs =>
    match cs with
    | [] => false
    | c :: rest =>
      if c = '"' ∨ c = sqChar then
        match splitAtQuote c rest with
        | some (_, rest2) => hasCommentChars fuel rest2
        | none => hasCommentChars fuel rest
      else if c = '/' then
        match rest with
        | c2 :: rest2 =>
          if c2 = '*' then
            match dropAfterBlockEnd rest2 with
            | some _ => true
            | none => hasCommentChars fuel rest
          else if c2 = '/' then
            match rest2.dropWhile (fun ch => ch != '\r' && ch != '\n') with
            | [] => true
            | ch :: _ => if ch = '\n' then true else hasCommentChars fuel rest
          else hasCommentChars fuel rest
        | [] => false
      else hasCommentChars fuel rest

/-- The text contains a comment, in the exact sense the stripping regex
would delete one. -/
def hasComment (s : String) : Bool :=
  hasCommentChars s.data.length s.data

/-! ## JSON decoding (`json.loads`, called at src/app.py line 35)

A recursive-descent embedding of the stdlib decoder on the value domain
above: the four JSON whitespace characters, `null` / `true` / `false`,
strings with the standard escapes (strict mode: raw control characters are
rejected), integer numbers with the leading-zero rule, objects and arrays.
Fraction/exponent forms decode to floats in Python and are outside this
integer-valued model. Duplicate object keys are kept in sequence rather
than last-wins. `fuel` only drives termination and is chosen large enough
for the whole input. -/

def skipWs (cs : List Char) : List Char :=
  cs.dropWhile (fun c => c == ' ' || c == '\t' || c == '\n' || c == '\r')

def hexVal (c : Char) : Option Nat :=
  if '0' ≤ c ∧ c ≤ '9' then some (c.toNat - 48)
  else if 'a' ≤ c ∧ c ≤ 'f' then some (c.toNat - 87)
  else if 'A' ≤ c ∧ c ≤ 'F' then some (c.toNat - 55)
  else none

def parseStringBody : Nat → List Char → Option (String × List Char)
  | 0, _ => none
  | fuel + 1, cs =>
    match cs with
    | [] => none
    | c :: rest =>
      if c = '"' then some ("", rest)
      else if c = '\\' then
        match rest with
        | [] => none
        | e :: rest2 =>
          let esc : Option (Char × List Char) :=
            if e = '"' then some ('"', rest2)
            else if e = '\\' then some ('\\', rest2)
            else if e = '/' then some ('/', rest2)
            else if e = 'b' then some (Char.ofNat 8, rest2)
            else if e = 'f' then some (Char.ofNat 12, rest2)
            else if e = 'n' then some ('\n', rest2)
            else if e = 'r' then some ('\r', rest2)
            else if e = 't' then some ('\t', rest2)
            else if e = 'u' then
              match rest2 with
              | h1 :: h2 :: h3 :: h4 :: rest3 =>
                match hexVal h1, hexVal h2, hexVal h3, hexVal h4 with
                | some a, some b, some c2, some d =>
                  some (Char.ofNat (4096 * a + 256 * b + 16 * c2 + d), rest3)
                | _, _, _, _ => none
              | _ => none
            else none
          match esc with
          | some (ch, restN) =>
            (parseStringBody fuel restN).map (fun pr => (String.mk [ch] ++ pr.1, pr.2))
          | none => none
      else if c.toNat < 32 then none
      else (parseStringBody fuel rest).map (fun pr => (String.mk [c] ++ pr.1, pr.2))

def isDigitCh (c : Char) : Bool :=
  '0' ≤ c && c ≤ '9'

def digitsToNat : List Char → Nat → Nat
  | [], acc => acc
  | c :: rest, acc => digitsToNat rest (10 * acc + (c.toNat - 48))

def parseNumber (cs : List Char) : Option (Int × List Char) :=
  let sign : Bool × List Char :=
    match cs with
    | c :: rest => if c = '-' then (true, rest) else (false, cs)
    | [] => (false, cs)
  match sign.2 with
  | [] => none
  | c :: _ =>
    if isDigitCh c then
      let ds := sign.2.takeWhile isDigitCh
      let rest := sign.2.dropWhile isDigitCh
      if c = '0' ∧ ds.length > 1 then none
      else
        let n : Int := Int.ofNat (digitsToNat ds 0)
        match rest with
        | r :: _ => if r = '.' ∨ r = 'e' ∨ r = 'E' then none
                    else some (if sign.1 then -n else n, rest)
        | [] => some (if sign.1 then -n else n, rest)
    else none

mutual
def parseVal : Nat → List Char → Option (JsonValue × List Char)
  | 0, _ => none
  | fuel + 1, cs =>
    match skipWs cs with
    | [] => none
    | c :: rest =>
      if c = 'n' then
        match rest with
        | 'u' :: 'l' :: 'l' :: r => some (.null, r)
        | _ => none
      else if c = 't' then
        match rest with
        | 'r' :: 'u' :: 'e' :: r => some (.bool true, r)
        | _ => none
      else if c = 'f' then
        match rest with
        | 'a' :: 'l' :: 's' :: 'e' :: r => some (.bool false, r)
        | _ => none
      else if c = '"' then
        (parseStringBody (fuel + 1) rest).map (fun pr => (.str pr.1, pr.2))
      else if c = lbrace then
        match skipWs rest with
        | c2 :: r2 =>
          if c2 = rbrace then some (.obj .nil, r2)
          else (parsePairs fuel rest).map (fun pr => (.obj pr.1, pr.2))
        | [] => none
      else if c = '[' then
        match skipWs rest with
        | c2 :: r2 =>
          if c2 = ']' then some (.arr .nil, r2)
          else (parseItemsSeq fuel rest).map (fun pr => (.arr pr.1, pr.2))
        | [] => none
      else
        (parseNumber (c :: rest)).map (fun pr => (.num pr.1, pr.2))

def parsePairs : Nat → List Char → Option (JsonMembers × List Char)
  | 0, _ => none
  | fuel + 1, cs =>
    match skipWs cs with
    | '"' :: rest =>
      match parseStringBody (fuel + 1) rest with
      | some (k, r1) =>
        match skipWs r1 with
        | ':' :: r2 =>
          match parseVal fuel r2 with
          | some (v, r3) =>
            match skipWs r3 with
            | ',' :: r4 => (parsePairs fuel r4).map (fun pr => (.cons k v pr.1, pr.2))
            | c :: r4 => if c = rbrace then some (.cons k v .nil, r4) else none
            | [] => none
          | none => none
        | _ => none
      | none => none
    | _ => none

def parseItemsSeq : Nat → List Char → Option (JsonItems × List Char)
  | 0, _ => none
  | fuel + 1, cs =>
    match parseVal fuel cs with
    | some (v, r1) =>
      match skipWs r1 with
      | ',' :: r2 => (parseItemsSeq fuel r2).map (fun pr => (.cons v pr.1, pr.2))
      | ']' :: r2 => some (.cons v .nil, r2)
      | _ => none
    | none => none
end

/-- `json.loads` on this value domain: a full parse of the text, with
trailing whitespace allowed and anything else rejected. -/
def json_loads (s : String) : Option JsonValue :=
  match parseVal (2 * s.data.length + 4) s.data with
  | some (v, rest) => if (skipWs rest).isEmpty then some v else none
  | none => none

/-- `parse_json_file` (src/app.py lines 32-38): strip comments, decode;
a `JSONDecodeError` is caught and surfaced as `None` (the `st.error` call
is presentation-layer output). -/
def parse_json_file (file_content : String) : Option JsonValue :=
  json_loads (remove_comments file_content)

/-- `main` (src/app.py lines 113-159), modelled for an uploaded file with
the given content and an empty search box: the left column computes
`json_data = parse_json_file(...)`; the right column renders whenever
`'json_data' in locals()` holds, which is true after any upload — including
a failed parse, where `json_data` is `None` and `render_json_tree` is called
on it (and `search_term`, never assigned, defaults to `""` via the
`'search_term' in locals()` guard at line 152). -/
def main_view (uploaded_content : Option String) : Option String :=
  match uploaded_content with
  | none => none
  | some file_content =>
    let json_data := parse_json_file file_content
    some (render_json_tree (json_data.getD JsonValue.null) "root" "" 0)

/-! ## Shared lemmas -/

theorem strIsPre_append (p s : String) : strIsPre p (p ++ s) = true := by
  show List.isPrefixOf p.data (p.data ++ s.data) = true
  rw [List.isPrefixOf_iff_prefix]
  exact List.prefix_append _ _

theorem strIsPre_stretch (p q r : String) :
    strIsPre p q = true → strIsPre p (q ++ r) = true := by
  simp only [strIsPre, List.isPrefixOf_iff_prefix]
  intro h
  exact List.IsPrefix.trans h (List.prefix_append _ _)

theorem strIsPre_trans (a b c : String) :
    strIsPre a b = true → strIsPre b c = true → strIsPre a c = true := by
  simp only [strIsPre, List.isPrefixOf_iff_prefix]
  exact fun h1 h2 => List.IsPrefix.trans h1 h2

theorem str_append_ne_empty (p s : String) (h : p ≠ "") : p ++ s ≠ "" := by
  intro hc
  apply h
  have hd : p.data ++ s.data = ([] : List Char) := congrArg String.data hc
  have hp : p.data = [] := (List.append_eq_nil.mp hd).1
  cases p
  simp_all

/-- Every hit reported below a non-root path extends that path: the engine
only ever appends to `path` when recursing. -/
theorem search_path_aux : ∀ n : Nat,
    (∀ v : JsonValue, sizeOf v ≤ n → ∀ term path h, h ∈ search_json v term path →
      path = "" ∨ strIsPre path h.path = true) ∧
    (∀ ms : JsonMembers, sizeOf ms ≤ n → ∀ term path h, h ∈ searchMembers ms term path →
      path = "" ∨ strIsPre path h.path = true) ∧
    (∀ its : JsonItems, sizeOf its ≤ n → ∀ term path i h, h ∈ searchItems its term path i →
      path = "" ∨ strIsPre path h.path = true) := by
  intro n
  induction n with
  | zero =>
    refine ⟨fun v hv => ?_, fun ms hm => ?_, fun its hi => ?_⟩
    · cases v <;> simp_all
    · cases ms <;> simp_all
    · cases its <;> simp_all
  | succ n ih =>
    obtain ⟨ihV, ihM, ihI⟩ := ih
    refine ⟨?_, ?_, ?_⟩
    · intro v hv term path h hmem
      cases v with
      | obj ms =>
        have hs : sizeOf ms ≤ n := by simp at hv; omega
        exact ihM ms hs term path h hmem
      | arr its =>
        have hs : sizeOf its ≤ n := by simp at hv; omega
        exact ihI its hs term path 0 h hmem
      | str s => simp [search_json] at hmem
      | num m => simp [search_json] at hmem
      | bool b => simp [search_json] at hmem
      | null => simp [search_json] at hmem
    · intro ms hm term path h hmem
      cases ms with
      | nil => simp [searchMembers] at hmem
      | cons k v rest =>
        by_cases hp : path = ""
        · exact Or.inl hp
        · refine Or.inr ?_
          have hpre : strIsPre path (child_path path k) = true := by
            simp only [child_path, if_pos (show path ≠ "" from hp)]
            exact strIsPre_stretch path (path ++ ".") k (strIsPre_append path ".")
          have hnonempty : child_path path k ≠ "" := by
            simp only [child_path, if_pos (show path ≠ "" from hp)]
            exact str_append_ne_empty _ _ (str_append_ne_empty _ _ hp)
          simp only [searchMembers] at hmem
          rcases List.mem_append.mp hmem with h12 | h3
          · rcases List.mem_append.mp h12 with h1 | h2
            · by_cases hc : strContains (strLower k) (strLower term) || search_value_match term v
              · rw [if_pos hc] at h1
                have : h = ⟨child_path path k, k, v⟩ := List.mem_singleton.mp h1
                rw [this]
                exact hpre
              · rw [if_neg hc] at h1
                simp at h1
            · have hs : sizeOf v ≤ n := by simp at hm; omega
              rcases ihV v hs term (child_path path k) h h2 with hz | hz
              · exact absurd hz hnonempty
              · exact strIsPre_trans path (child_path path k) h.path hpre hz
          · have hs : sizeOf rest ≤ n := by simp at hm; omega
            rcases ihM rest hs term path h h3 with hz | hz
            · exact absurd hz hp
            · exact hz
    · intro its hi term path i h hmem
      cases its with
      | nil => simp [searchItems] at hmem
      | cons v rest =>
        by_cases hp : path = ""
        · exact Or.inl hp
        · refine Or.inr ?_
          simp only [searchItems] at hmem
          rcases List.mem_append.mp hmem with h1 | h2
          · have hs : sizeOf v ≤ n := by simp at hi; omega
            have hpre : strIsPre path (path ++ "[" ++ toString i ++ "]") = true :=
              strIsPre_stretch path (path ++ "[" ++ toString i) "]"
                (strIsPre_stretch path (path ++ "[") (toString i) (strIsPre_append path "["))
            have hnonempty : path ++ "[" ++ toString i ++ "]" ≠ "" :=
              str_append_ne_empty _ _ (str_append_ne_empty _ _ (str_append_ne_empty _ _ hp))
            rcases ihV v hs term (path ++ "[" ++ toString i ++ "]") h h1 with hz | hz
            · exact absurd hz hnonempty
            · exact strIsPre_trans path _ h.path hpre hz
          · have hs : sizeOf rest ≤ n := by simp at hi; omega
            rcases ihI rest hs term path (i + 1) h h2 with hz | hz
            · exact absurd hz hp
            · exact hz

/-- Every container node in a rendered tree carries the depth-derived
default-expanded flag, with children one level deeper. -/
theorem expandedOk_aux : ∀ n : Nat,
    (∀ v : JsonValue, sizeOf v ≤ n → ∀ key t l, expandedOk (renderTree v key t l) l = true) ∧
    (∀ ms : JsonMembers, sizeOf ms ≤ n → ∀ t l, expandedOkKids (renderMembers ms t l) l = true) ∧
    (∀ its : JsonItems, sizeOf its ≤ n → ∀ t l i, expandedOkKids (renderItems its t l i) l = true) := by
  intro n
  induction n with
  | zero =>
    refine ⟨fun v hv => ?_, fun ms hm => ?_, fun its hi => ?_⟩
    · cases v <;> simp_all
    · cases ms <;> simp_all
    · cases its <;> simp_all
  | succ n ih =>
    obtain ⟨ihV, ihM, ihI⟩ := ih
    refine ⟨?_, ?_, ?_⟩
    · intro v hv key t l
      cases v with
      | obj ms =>
        have hs : sizeOf ms ≤ n := by simp at hv; omega
        show ((decide (l < 2) == decide (l < 2)) &&
          expandedOkKids (renderMembers ms t (l + 1)) (l + 1)) = true
        rw [beq_self_eq_true, Bool.true_and]
        exact ihM ms hs t (l + 1)
      | arr its =>
        have hs : sizeOf its ≤ n := by simp at hv; omega
        show ((decide (l < 2) == decide (l < 2)) &&
          expandedOkKids (renderItems its t (l + 1) 0) (l + 1)) = true
        rw [beq_self_eq_true, Bool.true_and]
        exact ihI its hs t (l + 1) 0
      | str s => rfl
      | num m => rfl
      | bool b => rfl
      | null => rfl
    · intro ms hm t l
      cases ms with
      | nil => rfl
      | cons k v rest =>
        have hs1 : sizeOf v ≤ n := by simp at hm; omega
        have hs2 : sizeOf rest ≤ n := by simp at hm; omega
        show (expandedOk (renderTree v k t l) l &&
          expandedOkKids (renderMembers rest t l) l) = true
        rw [ihV v hs1 k t l, ihM rest hs2 t l]
        rfl
    · intro its hi t l i
      cases its with
      | nil => rfl
      | cons v rest =>
        have hs1 : sizeOf v ≤ n := by simp at hi; omega
        have hs2 : sizeOf rest ≤ n := by simp at hi; omega
        show (expandedOk (renderTree v ("[" ++ toString i ++ "]") t l) l &&
          expandedOkKids (renderItems rest t l (i + 1)) l) = true
        rw [ihV v hs1 ("[" ++ toString i ++ "]") t l, ihI rest hs2 t l (i + 1)]
        rfl

theorem splitAtQuote_eq (q : Char) :
    ∀ (cs pre post : List Char), splitAtQuote q cs = some (pre, post) → cs = pre ++ q :: post := by
  intro cs
  induction cs with
  | nil => intro pre post hsp; simp [splitAtQuote] at hsp
  | cons c rest ih =>
    intro pre post hsp
    by_cases hc : c = q
    · rw [splitAtQuote, if_pos hc] at hsp
      simp at hsp
      obtain ⟨h1, h2⟩ := hsp
      subst h1
      subst h2
      simp [hc]
    · rw [splitAtQuote, if_neg hc] at hsp
      cases hq : splitAtQuote q rest with
      | none => rw [hq] at hsp; simp at hsp
      | some pr =>
        rw [hq] at hsp
        simp at hsp
        obtain ⟨h1, h2⟩ := hsp
        subst h1
        subst h2
        have hr := ih pr.1 pr.2 (by rw [hq])
        simp only [List.cons_append]
        rw [← hr]

/-- When the scan finds no comment, the substitution is the identity:
string-literal matches are replaced by themselves and all other text is
copied through. -/
theorem stripChars_id_of_no_comment :
    ∀ (fuel : Nat) (cs : List Char),
      hasCommentChars fuel cs = false → stripChars fuel cs = cs := by
  intro fuel
  induction fuel with
  | zero => intro cs _; rfl
  | succ fuel ih =>
    intro cs hnc
    cases cs with
    | nil => rfl
    | cons c rest =>
      by_cases hq : c = '"' ∨ c = sqChar
      · cases hsp : splitAtQuote c rest with
        | some pr =>
          obtain ⟨content, rest2⟩ := pr
          have hr : rest = content ++ c :: rest2 := splitAtQuote_eq c rest content rest2 hsp
          have hnc2 : hasCommentChars fuel rest2 = false := by
            simp only [hasCommentChars, if_pos hq, hsp] at hnc
            exact hnc
          simp only [stripChars, if_pos hq, hsp, ih rest2 hnc2]
          rw [hr]
        | none =>
          have hnc2 : hasCommentChars fuel rest = false := by
            simp only [hasCommentChars, if_pos hq, hsp] at hnc
            exact hnc
          simp only [stripChars, if_pos hq, hsp, ih rest hnc2]
      · by_cases hs : c = '/'
        · cases rest with
          | nil => simp only [stripChars, if_neg hq, if_pos hs]
          | cons c2 rest2 =>
            by_cases hb : c2 = '*'
            · cases hdb : dropAfterBlockEnd rest2 with
              | some r3 =>
                exfalso
                simp only [hasCommentChars, if_neg hq, if_pos hs, if_pos hb, hdb] at hnc
                exact Bool.noConfusion hnc
              | none =>
                have hnc2 : hasCommentChars fuel (c2 :: rest2) = false := by
                  simp only [hasCommentChars, if_neg hq, if_pos hs, if_pos hb, hdb] at hnc
                  exact hnc
                simp only [stripChars, if_neg hq, if_pos hs, if_pos hb, hdb, ih _ hnc2]
            · by_cases hsl : c2 = '/'
              · cases hdw : rest2.dropWhile (fun ch => ch != '\r' && ch != '\n') with
                | nil =>
                  exfalso
                  simp only [hasCommentChars, if_neg hq, if_pos hs, if_neg hb, if_pos hsl,
                    hdw] at hnc
                  exact Bool.noConfusion hnc
                | cons ch tail =>
                  by_cases hnl : ch = '\n'
                  · exfalso
                    simp only [hasCommentChars, if_neg hq, if_pos hs, if_neg hb, if_pos hsl,
                      hdw, if_pos hnl] at hnc
                    exact Bool.noConfusion hnc
                  · have hnc2 : hasCommentChars fuel (c2 :: rest2) = false := by
                      simp only [hasCommentChars, if_neg hq, if_pos hs, if_neg hb, if_pos hsl,
                        hdw, if_neg hnl] at hnc
                      exact hnc
                    simp only [stripChars, if_neg hq, if_pos hs, if_neg hb, if_pos hsl, hdw,
                      if_neg hnl, ih _ hnc2]
              · have hnc2 : hasCommentChars fuel (c2 :: rest2) = false := by
                  simp only [hasCommentChars, if_neg hq, if_pos hs, if_neg hb, if_neg hsl] at hnc
                  exact hnc
                simp only [stripChars, if_neg hq, if_pos hs, if_neg hb, if_neg hsl, ih _ hnc2]
        · have hnc2 : hasCommentChars fuel rest = false := by
            simp only [hasCommentChars, if_neg hq, if_neg hs] at hnc
            exact hnc
          simp only [stripChars, if_neg hq, if_neg hs, ih rest hnc2]

/-! ## Claim theorems -/

/-- C1: the claim says the boolean check precedes the numeric check so that
booleans classify as "boolean" and never as "number". In the code the
`isinstance(value, (int, float))` check at line 43 comes first and CPython
booleans are instances of `int`, so both boolean values classify as
"number", and the tag "boolean" is never returned for any value — the
code's own "boolean" branches (lines 45-46 and 91-92) are unreachable. -/
theorem get_value_type_boolean_misclassified :
    get_value_type (JsonValue.bool true) = "number" ∧
    get_value_type (JsonValue.bool false) = "number" ∧
    ∀ v : JsonValue, get_value_type v ≠ "boolean" := by
  refine ⟨rfl, rfl, fun v => ?_⟩
  cases v <;> simp [get_value_type, isinstance_str, isinstance_int_float, isinstance_bool,
    is_none, isinstance_dict, isinstance_list]

/-- C2 counterexample: for `\x7b"list": [10, 20]\x7d` and term "20" the single
hit sits at path "list" (the object pair whose serialized value contains
"20"), not at "list[1]": no hit in the result carries path "list[1]". -/
theorem search_list20_hit_is_the_pair :
    search_json exList "20" "" =
      [⟨"list", "list", .arr (.cons (.num 10) (.cons (.num 20) .nil))⟩] ∧
    ((search_json exList "20" "").all fun h => h.path != "list[1]") = true :=
  ⟨rfl, rfl⟩

/-- C2 amended: for `\x7b"list": [10, 20]\x7d` and term "20" search returns
exactly one hit, with path "list", key "list" and the whole array as value;
and in general an array slot itself never yields a hit — the array
traversal only recurses into its elements. -/
theorem search_array_slots_no_own_hits :
    search_json exList "20" "" =
      [⟨"list", "list", .arr (.cons (.num 10) (.cons (.num 20) .nil))⟩] ∧
    (∀ (its : JsonItems) (term path : String),
      search_json (.arr its) term path = searchItems its term path 0) ∧
    (∀ (v : JsonValue) (rest : JsonItems) (term path : String) (i : Nat),
      searchItems (.cons v rest) term path i =
        search_json v term (path ++ "[" ++ toString i ++ "]")
        ++ searchItems rest term path (i + 1)) :=
  ⟨rfl, fun _ _ _ => rfl, fun _ _ _ _ _ => rfl⟩

/-- C3: for every node the renderer produces (each node of the output tree
is `renderTree` of its own subtree), the highlight flag is set exactly when
the search term is non-empty and the lowercased serialization of the node's
entire subtree — `str(data).lower()`, the serialization the renderer
matches against — contains the lowercased term; in particular the flag is
`false` whenever the term is empty, since `decide (t ≠ "")` is then
`false`. -/
theorem renderTree_highlight_characterization :
    ∀ (v : JsonValue) (key t : String) (level : Nat),
      (renderTree v key t level).isHighlighted =
        (decide (t ≠ "") && strContains (strLower (pyStr v)) (strLower t)) := by
  intro v key t level
  cases v <;> rfl

/-- C4 counterexample: the two components do not test the same
serialization. The search engine tests `json.dumps(v).lower()` while the
renderer tests `str(data).lower()`; at the null value with term "null" the
search predicate holds ("null" vs "null") but the highlight predicate fails
(Python renders `None`, whose lowercase "none" does not contain "null"). -/
theorem search_and_highlight_predicates_differ :
    search_value_match "null" JsonValue.null = true ∧
    render_highlight JsonValue.null "null" = false :=
  ⟨rfl, rfl⟩

/-- C4 amended: the search engine serializes with `json.dumps` while the
renderer serializes with Python `str`, and the two predicates disagree in
general (null, strings); they do agree, for every non-empty term, on
numeric and boolean leaves, where the two serializations coincide after
lowercasing. -/
theorem search_and_highlight_agree_on_num_bool :
    ∀ (t : String), t ≠ "" → ∀ (n : Int) (b : Bool),
      search_value_match t (JsonValue.num n) = render_highlight (JsonValue.num n) t ∧
      search_value_match t (JsonValue.bool b) = render_highlight (JsonValue.bool b) t := by
  intro t ht n b
  have hd : decide (t ≠ "") = true := by simp [ht]
  constructor
  · simp only [render_highlight, hd, Bool.true_and]
    rfl
  · cases b <;> (simp only [render_highlight, hd, Bool.true_and]; rfl)

/-- Witness for the amended C4 theorem at term "0", value 0 and `true`. -/
theorem search_and_highlight_agree_witness :
    ("0" : String) ≠ "" ∧
    (search_value_match "0" (JsonValue.num 0) = render_highlight (JsonValue.num 0) "0" ∧
     search_value_match "0" (JsonValue.bool true) = render_highlight (JsonValue.bool true) "0") :=
  ⟨by decide, search_and_highlight_agree_on_num_bool "0" (by decide) 0 true⟩

/-- C5: during object traversal a hit is emitted for a pair exactly when
the term (case-insensitively) occurs in the key or in the `json.dumps`
serialization of the value's entire subtree, and the engine recurses into
the value unconditionally; concretely, searching
`\x7b"a": 1, "b": \x7b"c": 2\x7d\x7d` for "1" yields exactly one hit, at
path "a". -/
theorem search_object_pair_rule :
    (∀ (k : String) (v : JsonValue) (rest : JsonMembers) (term path : String),
      search_json (.obj (.cons k v rest)) term path =
        (if strContains (strLower k) (strLower term) || search_value_match term v
         then [⟨child_path path k, k, v⟩] else [])
        ++ search_json v term (child_path path k)
        ++ search_json (.obj rest) term path) ∧
    search_json exAB "1" "" = [⟨"a", "a", JsonValue.num 1⟩] :=
  ⟨fun _ _ _ _ _ => rfl, rfl⟩

/-- C6: the result list is in pre-order: an object pair contributes its own
hit (if any) before all hits from inside its value, which precede the hits
of later siblings; array elements contribute in index order; and every hit
found below a non-root path extends that path, so a parent pair's hit
(whose path is exactly the child path) precedes its descendants' hits.
Determinism across calls is inherent: the embedded engine is a pure
function of its arguments, as is the source traversal (CPython dict order
is insertion order). -/
theorem search_preorder_shape_and_paths :
    (∀ (k : String) (v : JsonValue) (rest : JsonMembers) (term path : String),
      search_json (.obj (.cons k v rest)) term path =
        (if strContains (strLower k) (strLower term) || search_value_match term v
         then [⟨child_path path k, k, v⟩] else [])
        ++ search_json v term (child_path path k)
        ++ search_json (.obj rest) term path) ∧
    (∀ (v : JsonValue) (rest : JsonItems) (term path : String),
      search_json (.arr (.cons v rest)) term path =
        search_json v term (path ++ "[" ++ toString 0 ++ "]")
        ++ searchItems rest term path 1) ∧
    (∀ (v : JsonValue) (term path : String) (h : SearchHit),
      h ∈ search_json v term path → path = "" ∨ strIsPre path h.path = true) := by
  refine ⟨fun _ _ _ _ _ => rfl, fun _ _ _ _ => rfl, fun v term path h hm => ?_⟩
  exact (search_path_aux (sizeOf v)).1 v (le_refl _) term path h hm

/-- Witness for the C6 theorem: the hit of `exAB` under root path "root"
extends that path. -/
theorem search_preorder_witness :
    (⟨"root.a", "a", JsonValue.num 1⟩ : SearchHit) ∈ search_json exAB "1" "root" ∧
    (("root" : String) = "" ∨ strIsPre "root" "root.a" = true) :=
  ⟨List.Mem.head _,
   search_preorder_shape_and_paths.2.2 exAB "1" "root" ⟨"root.a", "a", JsonValue.num 1⟩
     (List.Mem.head _)⟩

/-- C7: a container rendered at depth `l` (root at 0) gets default-expanded
flag `l < 2` — stated both for the node itself (object and array cases,
with arbitrary content and term, so the flag is independent of content and
match status) and for every container node of the whole rendered tree via
`expandedOk`, children counting one level deeper. -/
theorem renderTree_expansion_policy :
    (∀ (ms : JsonMembers) (key t : String) (l : Nat),
      (renderTree (.obj ms) key t l).expandedFlag = some (decide (l < 2))) ∧
    (∀ (its : JsonItems) (key t : String) (l : Nat),
      (renderTree (.arr its) key t l).expandedFlag = some (decide (l < 2))) ∧
    (∀ (v : JsonValue) (key t : String) (l : Nat),
      expandedOk (renderTree v key t l) l = true) := by
  refine ⟨fun _ _ _ _ => rfl, fun _ _ _ _ => rfl, fun v key t l => ?_⟩
  exact (expandedOk_aux (sizeOf v)).1 v (le_refl _) key t l

/-- C8: stripping is the identity on any text in which the scan finds no
comment (string-literal matches are replaced by themselves), and a quoted
string literal containing "//not a comment" is preserved exactly. -/
theorem remove_comments_preserves_comment_free :
    (∀ s : String, hasComment s = false → remove_comments s = s) ∧
    remove_comments "\x7b\"note\": \"//not a comment\"\x7d" =
      "\x7b\"note\": \"//not a comment\"\x7d" := by
  constructor
  · intro s hs
    show String.mk (stripChars s.data.length s.data) = s
    rw [stripChars_id_of_no_comment s.data.length s.data hs]
  · rfl

/-- Witness for the C8 theorem on a comment-free JSON text that contains
a slash inside a string literal. -/
theorem remove_comments_witness :
    hasComment "\x7b\"a\": [1, 2], \"b\": \"x/y\"\x7d" = false ∧
    remove_comments "\x7b\"a\": [1, 2], \"b\": \"x/y\"\x7d" =
      "\x7b\"a\": [1, 2], \"b\": \"x/y\"\x7d" :=
  ⟨by decide,
   remove_comments_preserves_comment_free.1 "\x7b\"a\": [1, 2], \"b\": \"x/y\"\x7d" (by decide)⟩

/-- C9: on input that is not valid JSON the parse step does return a
structured failure (`None`, no partial tree) — but the caller does NOT
decline to render: `main`'s right column is guarded only by
`'json_data' in locals()`, which holds after any upload, so after a failed
parse it calls `render_json_tree(None, ...)` and displays a `root: null`
leaf instead of rendering nothing. -/
theorem parse_failure_still_renders :
    parse_json_file "oops" = none ∧
    main_view (some "oops") =
      some ("<div class=\"tree-node \"><span class=\"json-key\">root</span>: "
        ++ "<span class=\"json-null\">null</span></div>") ∧
    main_view (some "oops") ≠ none := by
  refine ⟨rfl, rfl, fun h => Option.noConfusion h⟩

/-- C10: a root value that is neither an object nor an array produces no
hits for any term and path — the engine only emits hits for object
key-value pairs — so even a top-level leaf whose text equals the term is
never reported. -/
theorem search_leaf_root_yields_nothing :
    (∀ (s term path : String), search_json (.str s) term path = []) ∧
    (∀ (n : Int) (term path : String), search_json (.num n) term path = []) ∧
    (∀ (b : Bool) (term path : String), search_json (.bool b) term path = []) ∧
    (∀ (term path : String), search_json .null term path = []) ∧
    search_json (.str "match me") "match me" "" = [] :=
  ⟨fun _ _ _ => rfl, fun _ _ _ => rfl, fun _ _ _ => rfl, fun _ _ => rfl, rfl⟩
